import Mathlib

/-!
Verification development for the proxy-phishing discovery & harvesting engine:
a shallow embedding, over `List Char` strings and explicit state, of the
urlscan search harvester (`src/collectors/urlscan_collecting_today.py`) and
the subpage prober (`src/pipelines/03_04_extract_and_probe_recent_subpages.py`),
together with theorems settling the frozen claims C1-C10.

Python `str` values are embedded as `List Char`; Python `None` of an optional
string as `Option (List Char)`; machine-independent integers as `Nat`/`Int`.
Network effects (HTTP status / transport failure) are oracles passed in as
explicit parameters, so every definition is executable.
-/

/-! ## Python-string helpers over `List Char` -/

/-- Lowercase every character (model of Python `str.lower()` for ASCII). -/
def toLowerL (s : List Char) : List Char := s.map Char.toLower

/-- Holds (as `true`) iff `pat` occurs at the start of `l`
(model of Python `str.startswith`). -/
def hasPre : List Char → List Char → Bool
  | [], _ => true
  | _ :: _, [] => false
  | p :: ps, c :: cs => p == c && hasPre ps cs

/-- Holds (as `true`) iff `pat` occurs contiguously anywhere in `l`
(model of the Python substring test on strings). -/
def hasSub (pat : List Char) : List Char → Bool
  | [] => hasPre pat []
  | c :: cs => hasPre pat (c :: cs) || hasSub pat cs

/-- Whitespace stripped by Python `str.strip()` (ASCII subset). -/
def isPySpace (c : Char) : Bool :=
  c == ' ' || c == '\t' || c == '\n' || c == '\r' || c == '\x0b' || c == '\x0c'

/-- Model of Python `str.strip()`. -/
def pyStrip (s : List Char) : List Char :=
  ((s.dropWhile isPySpace).reverse.dropWhile isPySpace).reverse

/-- Model of Python `str.split(sep)` for a one-character separator:
always returns at least one (possibly empty) component. -/
def pySplit (sep : Char) : List Char → List (List Char)
  | [] => [[]]
  | c :: cs =>
    let r := pySplit sep cs
    if c == sep then [] :: r
    else
      match r with
      | [] => [[c]]
      | h :: t => (c :: h) :: t

/-- Membership test for a character (model of Python `c in s`). -/
def containsChar (s : List Char) (c : Char) : Bool := s.any (fun d => d == c)

/-- Model of Python `str.isdigit()` for ASCII: non-empty and all digits. -/
def pyIsdigit (s : List Char) : Bool := !s.isEmpty && s.all Char.isDigit

/-! ## Harvester: credential rotation (`KeyRotator` / `_call_urlscan_with_rotation`)

`KeyRotator.rotate` sets `idx = (idx + 1) % len(keys)`.  Inside
`_call_urlscan_with_rotation`, under uniformly failing 429 responses every
attempt increments `attempts`, sleeps, rotates, then evaluates the exhaustion
check `rotator.idx == initial_key_idx and attempts > len(rotator)`, raising
the fatal "all credentials failed" error when it is true. -/

/-- Index update performed by `KeyRotator.rotate` for a pool of `n` keys. -/
def rotateNext (n i : Nat) : Nat := (i + 1) % n

/-- Credential index after `k` consecutive rotations starting from `start`. -/
def idxAfter (n start : Nat) : Nat → Nat
  | 0 => start
  | k + 1 => rotateNext n (idxAfter n start k)

/-- The exhaustion condition of `_call_urlscan_with_rotation`, evaluated at the
bottom of the `k`-th loop iteration under all-429 failures: the rotator has
returned to its starting index and more attempts than pool size were made. -/
def exhaustRaises (n start k : Nat) : Bool :=
  (idxAfter n start k == start) && decide (k > n)

/-! ## Harvester: dedup (`_row_exists` / the insert loop of `collect_and_store`) -/

/-- One result item as far as deduplication is concerned: `_row_exists` and the
insert guard consult only `row["urlscan_uuid"]` (the item's external id,
`task.uuid`); `none` models a missing/JSON-null uuid. The remaining parsed
fields of `_parse_result_item` do not influence dedup and are omitted. -/
structure ResultItem where
  uuid : Option (List Char)
deriving DecidableEq

/-- A stored `urls` row, restricted to the column dedup reads. -/
structure UrlsRow where
  urlscan_uuid : Option (List Char)
deriving DecidableEq

/-- Model of `_row_exists`: Python `if not urlscan_uuid: return False` makes
both `None` and the empty string report "absent"; otherwise an equality probe
of the `urlscan_uuid` column. -/
def rowExists (store : List UrlsRow) (u : Option (List Char)) : Bool :=
  match u with
  | none => false
  | some s => if s = [] then false else store.any (fun r => r.urlscan_uuid == some s)

/-- One iteration of the insert loop in `collect_and_store`:
`if not _row_exists(cur, row["urlscan_uuid"]): _insert_row(cur, row)`. -/
def insertStep (store : List UrlsRow) (it : ResultItem) : List UrlsRow :=
  if rowExists store it.uuid then store else store ++ [⟨it.uuid⟩]

/-- Processing one page's `results` list through the insert loop. -/
def processPage (store : List UrlsRow) (items : List ResultItem) : List UrlsRow :=
  items.foldl insertStep store

/-- Number of stored rows carrying external id `u`. -/
def countUuid (u : List Char) (store : List UrlsRow) : Nat :=
  store.countP (fun r => r.urlscan_uuid == some u)

/-! ## Harvester: cursor shape validation and `search_after` construction -/

/-- A JSON value as far as this collector inspects one: strings, integers,
arrays, null, and an opaque constructor for everything else.  (JSON floats in
`sort` arrays are not modelled; no claim depends on the `isinstance(x, float)`
branch of `_normalize_ms13`.) -/
inductive JVal where
  | jnull : JVal
  | jstr : List Char → JVal
  | jint : Int → JVal
  | jarr : List JVal → JVal
  | jother : JVal

/-- Model of `_looks_like_ms13` on a string: 13 ASCII digits. -/
def looksLikeMs13 (s : List Char) : Bool := pyIsdigit s && s.length == 13

/-- Model of `_looks_like_uuid` on a string: length 36 and exactly 4 hyphens. -/
def looksLikeUuid (s : List Char) : Bool :=
  s.length == 36 && s.countP (fun c => c == '-') == 4

/-- Integer part of `int(float(s))` for a plain non-negative decimal literal
(one dot, digits elsewhere, at least one digit); other float syntaxes
(signs, exponents, spaces) are not modelled — no claim exercises them. -/
def intPartOfDecimal (s : List Char) : Option (List Char) :=
  if s.countP (fun c => c == '.') == 1
      && s.all (fun c => c.isDigit || c == '.')
      && s.any Char.isDigit then
    some (if s.takeWhile (fun c => !(c == '.')) = []
          then ['0'] else s.takeWhile (fun c => !(c == '.')))
  else none

/-- Decimal rendering of an integer, as Python `str(x)` on an `int`. -/
def intRepr (n : Int) : List Char := (toString n).toList

/-- Model of `_normalize_ms13` applied to `sort[0] if len(sort) >= 1 else None`:
`None` stays `None`; ints are rendered and shape-checked; strings containing a
dot go through integer truncation first; other JSON values yield `None`. -/
def normalizeMs13 : Option JVal → Option (List Char)
  | none => none
  | some (JVal.jint n) =>
    if looksLikeMs13 (intRepr n) then some (intRepr n) else none
  | some (JVal.jstr s) =>
    if containsChar s '.' then
      match intPartOfDecimal s with
      | some ip => if looksLikeMs13 ip then some ip else none
      | none => none
    else if looksLikeMs13 s then some s else none
  | some _ => none

/-- One search-result item as the cursor builder sees it: its `sort` array
(`none` models an absent or JSON-null field, which `item.get("sort") or []`
turns into `[]`) and its `_id` (`none` models an absent or non-string id —
`_looks_like_uuid` rejects non-strings). -/
structure SItem where
  sort : Option (List JVal)
  sid : Option (List Char)

/-- The expression `sort[0] if len(sort) >= 1 else None`. -/
def sortHead (it : SItem) : Option JVal := (it.sort.getD []).head?

/-- The per-item qualification test of `_build_search_after_token`:
`ts = _normalize_ms13(sort[0]...)`, then `if ts and _looks_like_uuid(_id)`
yields the cursor pair `[ts, _id]`. -/
def qualifiesToken (it : SItem) : Option (List Char × List Char) :=
  match normalizeMs13 (sortHead it), it.sid with
  | some ts, some i => if looksLikeUuid i then some (ts, i) else none
  | _, _ => none

/-- Model of `_build_search_after_token`: empty page yields `None`; otherwise a
fast path on the last item, then a fallback scan of the reversed list; `None`
when nothing qualifies. -/
def buildSearchAfterToken (results : List SItem) : Option (List Char × List Char) :=
  match results.getLast? with
  | none => none
  | some last =>
    match qualifiesToken last with
    | some tok => some tok
    | none => results.reverse.findSome? qualifiesToken

/-- The `consecutive_empty_pages` update in `collect_and_store`: incremented
when a non-empty page inserted nothing new, reset to zero otherwise. -/
def nextStreak (results : List SItem) (pageInserted streak : Nat) : Nat :=
  if pageInserted == 0 && !results.isEmpty then streak + 1 else 0

/-- Whether the pagination loop of `collect_and_store` proceeds to another page
after this one: it breaks when the streak reaches its threshold, and breaks
when no `search_after` token could be built. -/
def collectContinues (results : List SItem) (pageInserted streak threshold : Nat) : Bool :=
  !(decide (nextStreak results pageInserted streak ≥ threshold))
    && (buildSearchAfterToken results).isSome

/-! ## Harvester: checkpoint read (`_get_resume_token`) -/

/-- Shape test `_looks_like_ms13(token[0])`: only a string can pass. -/
def jLooksLikeMs13 : JVal → Bool
  | JVal.jstr s => looksLikeMs13 s
  | _ => false

/-- Shape test `_looks_like_uuid(token[1])`: only a string can pass. -/
def jLooksLikeUuid : JVal → Bool
  | JVal.jstr s => looksLikeUuid s
  | _ => false

/-- Model of `_get_resume_token`.  `stored` is the raw TEXT of the checkpoint
row (`none` = no row); `parse` models `json.loads` (`none` = parse exception,
which the `except` clause maps to `None`).  Subscripting a non-array parse
result either raises (caught, `None`) or — for a string — yields a one-element
slice that can never pass the 13-digit test, so all non-array parses land on
`none`; an array shorter than 2 raises `IndexError`, also caught. -/
def getResumeToken (stored : Option (List Char))
    (parse : List Char → Option JVal) : Option JVal :=
  match stored with
  | none => none
  | some raw =>
    if raw = [] then none
    else
      match parse raw with
      | some (JVal.jarr xs) =>
        match xs.get? 0, xs.get? 1 with
        | some t0, some t1 =>
          if jLooksLikeMs13 t0 && jLooksLikeUuid t1 then some (JVal.jarr xs) else none
        | _, _ => none
      | _ => none

/-! ## Prober: URL parsing (`urllib.parse.urlparse` restricted to what the
pipeline reads: `.scheme`, `.netloc`, `.path`) -/

/-- Characters allowed after the first letter of a URL scheme. -/
def isSchemeChar (c : Char) : Bool := c.isAlphanum || c == '+' || c == '-' || c == '.'

/-- Split at the first colon, if any. -/
def splitAtColon (u : List Char) : Option (List Char × List Char) :=
  match u.findIdx? (fun c => c == ':') with
  | some i => some (u.take i, u.drop (i + 1))
  | none => none

/-- Model of `urlsplit`'s scheme/netloc/path decomposition: a valid scheme
(leading letter, scheme chars, before the first `:`) is split off and
lowercased; a netloc follows `//` and runs to the first `/`, `?` or `#`; the
path runs to the first `?` or `#`.  Query and fragment are dropped — the
pipeline never reads them. -/
def pyUrlsplit (u : List Char) : List Char × List Char × List Char :=
  let sp :=
    match splitAtColon u with
    | some (pre, post) =>
      if !pre.isEmpty && (pre.headD ' ').isAlpha && pre.all isSchemeChar
      then (toLowerL pre, post) else ([], u)
    | none => ([], u)
  let scheme := sp.1
  let rest := sp.2
  let np :=
    if hasPre ['/', '/'] rest then
      let r := rest.drop 2
      (r.takeWhile (fun c => !(c == '/' || c == '?' || c == '#')),
       r.dropWhile (fun c => !(c == '/' || c == '?' || c == '#')))
    else ([], rest)
  (scheme, np.1, np.2.takeWhile (fun c => !(c == '?' || c == '#')))

/-- Model of `extract_path`: `urlparse(u).path or ''`, with falsy/erroneous
input mapped to the empty string. -/
def extract_path (u : List Char) : List Char :=
  if u = [] then [] else (pyUrlsplit u).2.2

/-- Model of `origin_of`: `scheme://netloc` when both are non-empty,
else `None`. -/
def origin_of (u : List Char) : Option (List Char) :=
  let p := pyUrlsplit u
  if !p.1.isEmpty && !p.2.1.isEmpty
  then some (p.1 ++ "://".toList ++ p.2.1) else none

/-! ## Prober: path validation (`normalize_subpath`) -/

/-- The allow-listed substrings of `normalize_subpath` steps 5 and 6. -/
def allowedKeywords : List (List Char) :=
  ["api", "admin", "user", "www", "app"].map String.toList

/-- Whether a segment contains an allow-listed substring, case-insensitively
(`any(keyword in first_segment.lower() for keyword in allowed_keywords)`). -/
def anyKeywordIn (seg : List Char) : Bool :=
  allowedKeywords.any (fun kw => hasSub kw (toLowerL seg))

/-- Step 7 of `normalize_subpath`: ensure a leading slash. -/
def ensureSlash (p : List Char) : List Char :=
  if hasPre ['/'] p then p else '/' :: p

/-- Step 5 of `normalize_subpath`: when the `/`-split has more than one
component, its component at index 1, if non-empty, dotted and without an
allow-listed substring, blocks the path. -/
def blocked5Cond (path : List Char) : Bool :=
  match (pySplit '/' path).get? 1 with
  | some s1 => !s1.isEmpty && containsChar s1 '.' && !anyKeywordIn s1
  | none => false

/-- Step 6 of `normalize_subpath`: for a path not starting with `/`, its
leading `/`-split component, if dotted and without an allow-listed substring,
blocks the path. -/
def blocked6Cond (path : List Char) : Bool :=
  !hasPre ['/'] path && containsChar ((pySplit '/' path).headD []) '.'
    && !anyKeywordIn ((pySplit '/' path).headD [])

/-- Model of `normalize_subpath`, mirroring the source's step structure:
falsy input; strip; empty or root; absolute URLs; embedded `://` or
`/https:`/`/http:`; a colon in a path starting with neither `/` nor `http`;
the dotted split-component-1 check (step 5, applied whenever the split has
more than one component); the dotted leading-component check for paths not
starting with `/` (step 6); then slash normalization. -/
def normalize_subpath (p : List Char) : Option (List Char) :=
  if p = [] then none
  else
    let path := pyStrip p
    if path = [] then none
    else if path = ['/'] then none
    else if hasPre "http://".toList path || hasPre "https://".toList path then none
    else if hasSub "://".toList path || hasPre "/https:".toList path
            || hasPre "/http:".toList path then none
    else if containsChar path ':' && !hasPre ['/'] path
            && !hasPre "http".toList path then none
    else if blocked5Cond path then none
    else if blocked6Cond path then none
    else some (ensureSlash path)

/-- Modelled from the claim wording of C5 (not from the source): "the first
segment" of a path is its leading textual component, i.e. the first component
of the `/`-split after discarding leading slashes; the dotted-segment rule is
applied to it and to nothing else.  All other clauses follow the claim's
list in order. -/
def claimedFirstSeg (path : List Char) : List Char :=
  (pySplit '/' (path.dropWhile (fun c => c == '/'))).headD []

/-- Modelled from the claim wording of C5 (not from the source): the
PathValidator as the claim describes it, for comparison with
`normalize_subpath`. -/
def normalize_subpath_claimed (p : List Char) : Option (List Char) :=
  if p = [] then none
  else
    let path := pyStrip p
    if path = [] then none
    else if path = ['/'] then none
    else if hasPre "http://".toList path || hasPre "https://".toList path then none
    else if hasSub "://".toList path then none
    else if hasPre "/https:".toList path || hasPre "/http:".toList path then none
    else if containsChar path ':' && !hasPre ['/'] path
            && !hasPre "http".toList path then none
    else if containsChar (claimedFirstSeg path) '.'
            && !anyKeywordIn (claimedFirstSeg path) then none
    else some (ensureSlash path)

/-! ## Prober: HTTP probe (`is_success_status` / `http_probe`)

The network is an oracle: `headRes`/`getRes` are `some status` when the
request returned, `none` when it raised a transport/timeout exception. -/

/-- Model of `is_success_status`. -/
def is_success_status (code : Nat) : Bool := decide (200 ≤ code) && decide (code < 400)

/-- Model of `http_probe` over the two request outcomes: HEAD first; on a
non-success status, one GET retry; any exception (in either request) is caught
by the single `except` clause and mapped to `(False, 0)`. -/
def http_probe (headRes getRes : Option Nat) : Bool × Nat :=
  match headRes with
  | none => (false, 0)
  | some c =>
    if is_success_status c then (true, c)
    else
      match getRes with
      | none => (false, 0)
      | some d => (is_success_status d, d)

/-! ## Prober: markers, target predicate, observation -/

/-- A `urls` row as the prober reads it: its id and `second_page_url`
(`none` models SQL NULL). -/
structure PipeRow where
  rid : Nat
  second_page_url : Option (List Char)
deriving DecidableEq

/-- Model of `is_marker_present`: falsy values carry no marker; otherwise a
case-insensitive substring check for any of the three terminal markers. -/
def is_marker_present (v : Option (List Char)) : Bool :=
  match v with
  | none => false
  | some s =>
    if s = [] then false
    else
      hasSub "(sub_o)".toList (toLowerL s) || hasSub "(sub_x)".toList (toLowerL s)
        || hasSub "(access)".toList (toLowerL s)

/-- Model of `is_target_row`: URL present, no marker, path empty or root. -/
def is_target_row (r : PipeRow) : Bool :=
  match r.second_page_url with
  | none => false
  | some s =>
    if s = [] then false
    else if is_marker_present (some s) then false
    else (extract_path s).isEmpty || extract_path s == ['/']

/-- Model of `observe_paths_from_row`: no URL or a marker contributes nothing;
otherwise the extracted path is validated by `normalize_subpath`. -/
def observe_paths_from_row (r : PipeRow) : Option (List Char) :=
  match r.second_page_url with
  | none => none
  | some s =>
    if s = [] then none
    else if is_marker_present (some s) then none
    else normalize_subpath (extract_path s)

/-- Model of `build_candidate_url`: for the relative, already-validated
subpaths this pipeline produces, `urljoin(base.rstrip('/') + '/',
subpath.lstrip('/'))` is plain concatenation. -/
def build_candidate_url (base subpath : List Char) : List Char :=
  (base.reverse.dropWhile (fun c => c == '/')).reverse ++ ['/']
    ++ subpath.dropWhile (fun c => c == '/')

/-! ## Prober: concurrent candidate race (`probe_candidates_concurrently`)

The worker pool is modelled by an explicit completion order: `order` is the
sequence of candidate indices in the order their futures complete.  Each
completed future updates the mutex-guarded best slot exactly as the source
does, and the loop breaks early once the best index is 0. -/

/-- The mutable state guarded by the lock: `best_idx` and
`best = (chosen_url, chosen_subpath)`. -/
structure RaceAcc where
  bestIdx : Option Nat
  bestUrl : Option (List Char)
  bestSub : Option (List Char)
deriving DecidableEq

/-- The candidate at index `i`: its probe URL (via `build_candidate_url`) and
its subpath, as `_probe_one` reports them. -/
def candPair (org : List Char) (subpaths : List (List Char)) (i : Nat) :
    List Char × List Char :=
  (build_candidate_url org (subpaths.getD i []), subpaths.getD i [])

/-- Handling of one completed future: on success, take the strictly smaller
index (the first success when none was recorded). -/
def raceStep (ok : Nat → Bool) (cand : Nat → List Char × List Char)
    (a : RaceAcc) (i : Nat) : RaceAcc :=
  if ok i then
    match a.bestIdx with
    | none => ⟨some i, some (cand i).1, some (cand i).2⟩
    | some j => if i < j then ⟨some i, some (cand i).1, some (cand i).2⟩ else a
  else a

/-- The `as_completed` loop: process completions in order, breaking once the
best index is 0 (an index-0 success cannot be beaten). -/
def raceRun (ok : Nat → Bool) (cand : Nat → List Char × List Char) :
    List Nat → RaceAcc → RaceAcc
  | [], a => a
  | i :: rest, a =>
    let a2 := raceStep ok cand a i
    if a2.bestIdx == some 0 then a2 else raceRun ok cand rest a2

/-- Model of `probe_candidates_concurrently`: empty candidate list short-circuits
to `(None, None)`; otherwise the race over the completion order `order`, with
each worker's success decided by the probe oracle on its candidate URL. -/
def probe_candidates_concurrently (org : List Char) (subpaths : List (List Char))
    (probeOk : List Char → Bool) (order : List Nat) :
    Option (List Char) × Option (List Char) :=
  if subpaths.isEmpty then (none, none)
  else
    let cand := candPair org subpaths
    let a := raceRun (fun i => probeOk (cand i).1) cand order ⟨none, none, none⟩
    (a.bestUrl, a.bestSub)

/-! ## Prober: per-row pass (`scan_and_fill`)

`probeOk url` abstracts `http_probe(url)[0]` — one deterministic outcome per
URL for the duration of the pass.  The completion order of the race is taken
as the submission order; by the race theorems the winner is the same for every
completion order, so this loses no generality. -/

/-- Processing of one target row in `scan_and_fill`'s main loop: direct probe,
then origin extraction, then the candidate race over the reversed observation
queue (most recent first), then exactly one marker.  Non-target rows are
untouched.  Each update is committed individually in autocommit mode; the
model records it in the returned row. -/
def processRow (probeOk : List Char → Bool) (wq : List (List Char))
    (r : PipeRow) : PipeRow :=
  if is_target_row r then
    match r.second_page_url with
    | none => r
    | some u =>
      if probeOk u then ⟨r.rid, some (u ++ " (access)".toList)⟩
      else
        match origin_of u with
        | none => ⟨r.rid, some (u ++ " (sub_x)".toList)⟩
        | some org =>
          match probe_candidates_concurrently org wq.reverse probeOk
              (List.range wq.reverse.length) with
          | (some chosen, _) => ⟨r.rid, some (chosen ++ " (sub_o)".toList)⟩
          | (none, _) => ⟨r.rid, some (u ++ " (sub_x)".toList)⟩
  else r

/-- The observation queue push: `deque(maxlen=w)` keeps the `w` most recent. -/
def windowPush (w : Nat) (q : List (List Char)) (x : List Char) : List (List Char) :=
  (q ++ [x]).drop ((q ++ [x]).length - w)

/-- One iteration of `scan_and_fill`'s outer loop: process the row, then feed
the observation queue from the ORIGINAL row (the source reads the fetched
`row`, not the updated value). -/
def scanStep (probeOk : List Char → Bool) (w : Nat)
    (st : List (List Char) × List PipeRow) (r : PipeRow) :
    List (List Char) × List PipeRow :=
  let r2 := processRow probeOk st.1 r
  let wq2 :=
    match observe_paths_from_row r with
    | some obs => windowPush w st.1 obs
    | none => st.1
  (wq2, st.2 ++ [r2])

/-- Model of a full `scan_and_fill` pass over the fetched rows (id order),
returning the updated rows. -/
def scan_and_fill (probeOk : List Char → Bool) (w : Nat)
    (rows : List PipeRow) : List PipeRow :=
  (rows.foldl (scanStep probeOk w) ([], [])).2

/-! ## Auxiliary definitions used by the race theorems -/

/-- Minimum of two optional indices, `none` acting as plus infinity. -/
def optMin : Option Nat → Option Nat → Option Nat
  | none, b => b
  | some a, none => some a
  | some a, some b => some (min a b)

/-- The index `i` viewed as a success report: `some i` iff its probe succeeds. -/
def succOpt (ok : Nat → Bool) (i : Nat) : Option Nat :=
  if ok i then some i else none

/-- Smallest successful index occurring in `l` (`none` if no success). -/
def minSucc (ok : Nat → Bool) (l : List Nat) : Option Nat :=
  l.foldr (fun i m => optMin (succOpt ok i) m) none

/-- The race accumulator determined by a best index: empty when `none`,
otherwise the candidate's URL/subpath payload at that index. -/
def mkAcc (cand : Nat → List Char × List Char) : Option Nat → RaceAcc
  | none => ⟨none, none, none⟩
  | some i => ⟨some i, some (cand i).1, some (cand i).2⟩

/-- Auxiliary: the full rejection condition of `normalize_subpath` on the
stripped path, grouped exactly as the source's if-chain groups it; used to
state its input/output characterization. -/
def rejectCond (path : List Char) : Bool :=
  decide (path = []) || decide (path = ['/'])
    || (hasPre "http://".toList path || hasPre "https://".toList path)
    || (hasSub "://".toList path || hasPre "/https:".toList path
          || hasPre "/http:".toList path)
    || (containsChar path ':' && !hasPre ['/'] path && !hasPre "http".toList path)
    || blocked5Cond path || blocked6Cond path

/-! # Theorems -/

/-! ## C1: credential exhaustion -/

theorem idxAfter_eq (n start : Nat) (h : start < n) :
    ∀ k, idxAfter n start k = (start + k) % n := by
  intro k
  induction k with
  | zero => simp [idxAfter, Nat.mod_eq_of_lt h]
  | succ k ih =>
    rw [idxAfter, ih, rotateNext, Nat.mod_add_mod, Nat.add_assoc]

theorem exhaustRaises_iff (n start : Nat) (h2 : start < n) (k : Nat) :
    exhaustRaises n start k = true ↔ n ∣ k ∧ k > n := by
  unfold exhaustRaises
  rw [idxAfter_eq n start h2 k]
  rw [Bool.and_eq_true, beq_iff_eq, decide_eq_true_eq]
  constructor
  · rintro ⟨hmod, hgt⟩
    refine ⟨?_, hgt⟩
    have hmm : start % n = (start + k) % n := by rw [hmod, Nat.mod_eq_of_lt h2]
    have := (Nat.modEq_iff_dvd' (Nat.le_add_right start k)).mp hmm
    simpa using this
  · rintro ⟨⟨m, rfl⟩, hgt⟩
    refine ⟨?_, hgt⟩
    rw [Nat.add_mul_mod_self_left, Nat.mod_eq_of_lt h2]

/-- C1 (amended): in `_call_urlscan_with_rotation` under uniformly failing
429 attempts (each rotating the credential one step circularly), the fatal
"all credentials failed" error is raised exactly when the credential index
has returned to the starting index after more attempts than the pool size;
for a pool of N credentials this first happens after the (2N)-th consecutive
failed attempt — the check is false at every earlier attempt, in particular
at the (N+1)-th whenever N ≥ 2. -/
theorem rotation_exhaustion_first_at_2n (n start : Nat) (h1 : 1 ≤ n) (h2 : start < n) :
    exhaustRaises n start (2 * n) = true ∧
    ∀ k, k < 2 * n → exhaustRaises n start k = false := by
  constructor
  · rw [exhaustRaises_iff n start h2]
    exact ⟨⟨2, by ring⟩, by omega⟩
  · intro k hk
    cases hb : exhaustRaises n start k with
    | false => rfl
    | true =>
      obtain ⟨⟨m, rfl⟩, hgt⟩ := (exhaustRaises_iff n start h2 _).mp hb
      rcases m with _ | _ | m
      · simp at hgt
      · simp at hgt
      · have : n * (m + 1 + 1) = n * m + 2 * n := by ring
        omega

/-- C1 counterexample: with a pool of N = 2 credentials and every attempt
failing with 429, the claimed (N+1)-th = 3rd consecutive failure does NOT
raise the exhaustion error; it is first raised at attempt 4 = 2N. -/
theorem rotation_exhaustion_counterexample :
    exhaustRaises 2 0 3 = false ∧ exhaustRaises 2 0 4 = true := by decide

/-- C1 witness: the amended theorem instantiated at a pool of 2 credentials
starting at index 0. -/
theorem rotation_exhaustion_witness :
    exhaustRaises 2 0 4 = true ∧ exhaustRaises 2 0 3 = false := by
  have h := rotation_exhaustion_first_at_2n 2 0 (by norm_num) (by norm_num)
  exact ⟨by simpa using h.1, h.2 3 (by norm_num)⟩

/-! ## C2 / C10: deduplication by external id -/

theorem countUuid_append_one (u : List Char) (v : Option (List Char))
    (store : List UrlsRow) :
    countUuid u (store ++ [⟨v⟩]) =
      countUuid u store + (if v = some u then 1 else 0) := by
  simp only [countUuid, List.countP_append, List.countP_cons, List.countP_nil]
  by_cases h : v = some u
  · simp [h]
  · simp [h, beq_iff_eq]

theorem rowExists_some_iff (store : List UrlsRow) (u : List Char) (hu : u ≠ []) :
    rowExists store (some u) = true ↔ 0 < countUuid u store := by
  rw [rowExists, if_neg hu, List.any_eq_true, countUuid, List.countP_pos_iff]

theorem processPage_count (u : List Char) (hu : u ≠ []) :
    ∀ (items : List ResultItem) (store : List UrlsRow), countUuid u store ≤ 1 →
      countUuid u (processPage store items) ≤ 1 ∧
      ((0 < countUuid u store ∨ ∃ it ∈ items, it.uuid = some u) →
        countUuid u (processPage store items) = 1) := by
  intro items
  induction items with
  | nil =>
    intro store hle
    refine ⟨hle, ?_⟩
    rintro (hpos | ⟨it, hmem, _⟩)
    · simp only [processPage, List.foldl_nil]
      omega
    · simp at hmem
  | cons it rest ih =>
    intro store hle
    have hunf : processPage store (it :: rest) = processPage (insertStep store it) rest := rfl
    rw [hunf]
    by_cases hex : rowExists store it.uuid = true
    · have hs2 : insertStep store it = store := by simp [insertStep, hex]
      rw [hs2]
      refine ⟨(ih store hle).1, ?_⟩
      rintro (hpos | ⟨it2, hmem, huu⟩)
      · exact (ih store hle).2 (Or.inl hpos)
      · rcases List.mem_cons.mp hmem with rfl | hmem2
        · have hpos : 0 < countUuid u store := by
            rw [← rowExists_some_iff store u hu, ← huu]
            exact hex
          exact (ih store hle).2 (Or.inl hpos)
        · exact (ih store hle).2 (Or.inr ⟨it2, hmem2, huu⟩)
    · have hs2 : insertStep store it = store ++ [⟨it.uuid⟩] := by
        simp [insertStep, hex]
      rw [hs2]
      by_cases huu : it.uuid = some u
      · have h0 : countUuid u store = 0 := by
          by_contra hpos
          rw [huu] at hex
          exact hex ((rowExists_some_iff store u hu).mpr (by omega))
        have hc2 : countUuid u (store ++ [⟨it.uuid⟩]) = 1 := by
          rw [countUuid_append_one, h0, if_pos huu]
        refine ⟨(ih _ (by omega)).1, ?_⟩
        intro _
        exact (ih _ (by omega)).2 (Or.inl (by omega))
      · have hc2 : countUuid u (store ++ [⟨it.uuid⟩]) = countUuid u store := by
          rw [countUuid_append_one, if_neg huu, Nat.add_zero]
        have hle2 : countUuid u (store ++ [⟨it.uuid⟩]) ≤ 1 := by omega
        refine ⟨(ih _ hle2).1, ?_⟩
        rintro (hpos | ⟨it2, hmem, huu2⟩)
        · exact (ih _ hle2).2 (Or.inl (by omega))
        · rcases List.mem_cons.mp hmem with rfl | hmem2
          · exact absurd huu2 huu
          · exact (ih _ hle2).2 (Or.inr ⟨it2, hmem2, huu2⟩)

/-- C2 (amended): deduplication holds for every item whose external id
(`urlscan_uuid`) is a non-empty string: starting from any store holding at
most one record for that id, processing any page leaves at most one record
for it, and exactly one as soon as some processed item carries it — in
particular, inserting the same non-empty external id twice (within one page
or across resumed runs) leaves exactly one stored record.  Items with a
missing or empty external id are exempt (see the counterexample and C10). -/
theorem harvester_dedup_nonempty_uuid (u : List Char) (hu : u ≠ [])
    (store : List UrlsRow) (items : List ResultItem)
    (hle : countUuid u store ≤ 1) :
    countUuid u (processPage store items) ≤ 1 ∧
    ((∃ it ∈ items, it.uuid = some u) →
      countUuid u (processPage store items) = 1) := by
  refine ⟨(processPage_count u hu items store hle).1, ?_⟩
  intro hex
  exact (processPage_count u hu items store hle).2 (Or.inr hex)

/-- C2 counterexample: an item whose external id is the empty string is
re-inserted although a stored record with that external id already exists —
processing it twice from an empty store leaves two stored records for that
external id, refuting store-wide "exactly one record per externalId". -/
theorem harvester_dedup_counterexample :
    countUuid [] (processPage [] [⟨some []⟩, ⟨some []⟩]) = 2 := by decide

/-- C2 witness: the amended dedup theorem at external id "a", inserted twice
into an empty store, leaving exactly one record. -/
theorem harvester_dedup_witness :
    countUuid ['a'] (processPage [] [⟨some ['a']⟩, ⟨some ['a']⟩]) = 1 := by
  have h := harvester_dedup_nonempty_uuid ['a'] (by decide) [] [⟨some ['a']⟩, ⟨some ['a']⟩] (by decide)
  exact h.2 ⟨⟨some ['a']⟩, by decide⟩

/-- C10: the existence check reports "absent" whenever the item's external id
is missing (`None`) or the empty string, so such items are inserted
unconditionally; the same external-id-less item processed on two pages
produces two stored rows.  Deduplication therefore holds only for items with
a non-empty external id (which is C2 as amended). -/
theorem implicit_dedup_gap :
    (∀ store, rowExists store none = false) ∧
    (∀ store, rowExists store (some []) = false) ∧
    (∀ store, insertStep store ⟨none⟩ = store ++ [⟨none⟩]) ∧
    (∀ store, insertStep store ⟨some []⟩ = store ++ [⟨some []⟩]) ∧
    processPage (processPage [] [⟨none⟩]) [⟨none⟩] = [⟨none⟩, ⟨none⟩] ∧
    countUuid [] (processPage (processPage [] [⟨some []⟩]) [⟨some []⟩]) = 2 := by
  refine ⟨fun store => rfl, fun store => rfl, ?_, ?_, by decide, by decide⟩
  · intro store
    simp [insertStep, rowExists]
  · intro store
    simp [insertStep, rowExists]

/-! ## C3: the concurrent candidate race returns the smallest-index success -/

theorem optMin_none_right (a : Option Nat) : optMin a none = a := by
  cases a <;> rfl

theorem optMin_assoc (a b c : Option Nat) :
    optMin (optMin a b) c = optMin a (optMin b c) := by
  cases a <;> cases b <;> cases c <;> simp [optMin, Nat.min_assoc]

theorem optMin_comm (a b : Option Nat) : optMin a b = optMin b a := by
  cases a <;> cases b <;> simp [optMin, Nat.min_comm]

theorem optMin_zero_left (b : Option Nat) : optMin (some 0) b = some 0 := by
  cases b <;> simp [optMin, Nat.zero_min]

theorem minSucc_cons (ok : Nat → Bool) (i : Nat) (l : List Nat) :
    minSucc ok (i :: l) = optMin (succOpt ok i) (minSucc ok l) := rfl

theorem mkAcc_bestIdx (cand : Nat → List Char × List Char) (b : Option Nat) :
    (mkAcc cand b).bestIdx = b := by
  cases b <;> rfl

theorem raceStep_mkAcc (ok : Nat → Bool) (cand : Nat → List Char × List Char)
    (b : Option Nat) (i : Nat) :
    raceStep ok cand (mkAcc cand b) i = mkAcc cand (optMin b (succOpt ok i)) := by
  unfold raceStep succOpt
  cases hok : ok i
  · simp only [Bool.false_eq_true, if_false, optMin_none_right]
  · simp only [if_true]
    cases b with
    | none => simp [mkAcc, optMin]
    | some j =>
      simp only [mkAcc, mkAcc_bestIdx, optMin]
      by_cases hij : i < j
      · rw [if_pos hij]
        have hm : min j i = i := by omega
        rw [hm]
      · rw [if_neg hij]
        have hm : min j i = j := by omega
        rw [hm]

theorem raceRun_mkAcc (ok : Nat → Bool) (cand : Nat → List Char × List Char) :
    ∀ (l : List Nat) (b : Option Nat),
      raceRun ok cand l (mkAcc cand b) = mkAcc cand (optMin b (minSucc ok l)) := by
  intro l
  induction l with
  | nil =>
    intro b
    simp [raceRun, minSucc, optMin_none_right]
  | cons i rest ih =>
    intro b
    rw [raceRun, raceStep_mkAcc]
    by_cases hm : optMin b (succOpt ok i) = some 0
    · rw [hm]
      have hbeq : ((mkAcc cand (some 0)).bestIdx == some 0) = true := by
        rw [mkAcc_bestIdx]; rfl
      simp only [hbeq, if_true]
      rw [minSucc_cons, ← optMin_assoc, hm, optMin_zero_left]
    · have hbeq : ((mkAcc cand (optMin b (succOpt ok i))).bestIdx == some 0) = false := by
        rw [mkAcc_bestIdx]
        exact beq_eq_false_iff_ne.mpr hm
      simp only [hbeq, Bool.false_eq_true, if_false]
      rw [ih, minSucc_cons, ← optMin_assoc]

theorem minSucc_perm (ok : Nat → Bool) {l1 l2 : List Nat} (h : l1.Perm l2) :
    minSucc ok l1 = minSucc ok l2 := by
  induction h with
  | nil => rfl
  | cons x h ih => rw [minSucc_cons, minSucc_cons, ih]
  | swap x y l =>
    rw [minSucc_cons, minSucc_cons, minSucc_cons, minSucc_cons,
      ← optMin_assoc, ← optMin_assoc, optMin_comm (succOpt ok y) (succOpt ok x)]
  | trans _ _ ih1 ih2 => exact ih1.trans ih2

theorem minSucc_eq_none_iff (ok : Nat → Bool) (l : List Nat) :
    minSucc ok l = none ↔ ∀ i ∈ l, ok i = false := by
  induction l with
  | nil => simp [minSucc]
  | cons i rest ih =>
    rw [minSucc_cons]
    cases hok : ok i
    · simp only [succOpt, hok, Bool.false_eq_true, if_false]
      simp [optMin, ih, hok]
    · simp only [succOpt, hok, if_true]
      cases hr : minSucc ok rest <;>
        simp [optMin, hok]

theorem minSucc_spec_some (ok : Nat → Bool) :
    ∀ (l : List Nat) (m : Nat), minSucc ok l = some m →
      m ∈ l ∧ ok m = true ∧ ∀ j ∈ l, ok j = true → m ≤ j := by
  intro l
  induction l with
  | nil => intro m h; simp [minSucc] at h
  | cons i rest ih =>
    intro m h
    rw [minSucc_cons] at h
    cases hok : ok i
    · rw [succOpt, hok, if_neg (by simp)] at h
      have h2 : minSucc ok rest = some m := by
        cases hr : minSucc ok rest with
        | none => rw [hr] at h; simp [optMin] at h
        | some m2 => rw [hr] at h; exact h
      obtain ⟨hmem, hokm, hle⟩ := ih m h2
      refine ⟨List.mem_cons_of_mem i hmem, hokm, ?_⟩
      intro j hj hokj
      rcases List.mem_cons.mp hj with rfl | hj2
      · rw [hok] at hokj; exact absurd hokj (by simp)
      · exact hle j hj2 hokj
    · rw [succOpt, hok, if_pos rfl] at h
      cases hr : minSucc ok rest with
      | none =>
        rw [hr] at h
        simp only [optMin, Option.some.injEq] at h
        subst h
        refine ⟨List.mem_cons_self i rest, hok, ?_⟩
        intro j hj hokj
        rcases List.mem_cons.mp hj with rfl | hj2
        · exact Nat.le_refl j
        · rw [(minSucc_eq_none_iff ok rest).mp hr j hj2] at hokj
          exact absurd hokj (by simp)
      | some m2 =>
        rw [hr] at h
        simp only [optMin, Option.some.injEq] at h
        obtain ⟨hmem2, hokm2, hle2⟩ := ih m2 hr
        by_cases him : i ≤ m2
        · have hm : m = i := by omega
          rw [hm]
          refine ⟨List.mem_cons_self i rest, hok, ?_⟩
          intro j hj hokj
          rcases List.mem_cons.mp hj with rfl | hj2
          · exact Nat.le_refl j
          · exact Nat.le_trans him (hle2 j hj2 hokj)
        · have hm : m = m2 := by omega
          rw [hm]
          refine ⟨List.mem_cons_of_mem i hmem2, hokm2, ?_⟩
          intro j hj hokj
          rcases List.mem_cons.mp hj with rfl | hj2
          · omega
          · exact hle2 j hj2 hokj

theorem minSucc_range_eq (ok : Nat → Bool) (n m : Nat) (h1 : m < n)
    (h2 : ok m = true) (h3 : ∀ j, j < m → ok j = false) :
    minSucc ok (List.range n) = some m := by
  cases hms : minSucc ok (List.range n) with
  | none =>
    have := (minSucc_eq_none_iff ok (List.range n)).mp hms m (List.mem_range.mpr h1)
    rw [h2] at this
    exact absurd this (by simp)
  | some m2 =>
    obtain ⟨hmem, hok2, hle⟩ := minSucc_spec_some ok (List.range n) m2 hms
    have hub : m2 ≤ m := hle m (List.mem_range.mpr h1) h2
    have hlb : ¬m2 < m := by
      intro hc
      rw [h3 m2 hc] at hok2
      exact absurd hok2 (by simp)
    have : m2 = m := by omega
    rw [this]

theorem pcc_least_spec (probeOk : List Char → Bool) (org : List Char)
    (subpaths : List (List Char)) (order : List Nat)
    (hperm : order.Perm (List.range subpaths.length)) :
    (probe_candidates_concurrently org subpaths probeOk order = (none, none) ↔
      ∀ i, i < subpaths.length →
        probeOk (build_candidate_url org (subpaths.getD i [])) = false) ∧
    (∀ m, m < subpaths.length →
      probeOk (build_candidate_url org (subpaths.getD m [])) = true →
      (∀ j, j < m → probeOk (build_candidate_url org (subpaths.getD j [])) = false) →
      probe_candidates_concurrently org subpaths probeOk order =
        (some (build_candidate_url org (subpaths.getD m [])),
         some (subpaths.getD m []))) := by
  cases subpaths with
  | nil =>
    refine ⟨⟨fun _ i hi => absurd hi (Nat.not_lt_zero i), fun _ => rfl⟩, ?_⟩
    intro m hm
    exact absurd hm (Nat.not_lt_zero m)
  | cons s0 rest =>
    have hpcc : probe_candidates_concurrently org (s0 :: rest) probeOk order =
        ((mkAcc (candPair org (s0 :: rest))
            (minSucc (fun i => probeOk (candPair org (s0 :: rest) i).1) order)).bestUrl,
         (mkAcc (candPair org (s0 :: rest))
            (minSucc (fun i => probeOk (candPair org (s0 :: rest) i).1) order)).bestSub) := by
      simp only [probe_candidates_concurrently, List.isEmpty_cons, Bool.false_eq_true,
        if_false]
      rw [show (⟨none, none, none⟩ : RaceAcc) = mkAcc (candPair org (s0 :: rest)) none
            from rfl,
        raceRun_mkAcc]
      rfl
    have hmin : minSucc (fun i => probeOk (candPair org (s0 :: rest) i).1) order =
        minSucc (fun i => probeOk (candPair org (s0 :: rest) i).1)
          (List.range (s0 :: rest).length) :=
      minSucc_perm _ hperm
    rw [hpcc, hmin]
    constructor
    · cases hms : minSucc (fun i => probeOk (candPair org (s0 :: rest) i).1)
          (List.range (s0 :: rest).length) with
      | none =>
        constructor
        · intro _ i hi
          exact (minSucc_eq_none_iff _ _).mp hms i (List.mem_range.mpr hi)
        · intro _
          rfl
      | some m =>
        obtain ⟨hmem, hokm, _⟩ := minSucc_spec_some _ _ _ hms
        constructor
        · intro heq
          simp [mkAcc] at heq
        · intro hall
          have hokm2 : probeOk (build_candidate_url org ((s0 :: rest).getD m [])) = true :=
            hokm
          rw [hall m (List.mem_range.mp hmem)] at hokm2
          exact absurd hokm2 (by simp)
    · intro m hm hokm hleast
      have hms : minSucc (fun i => probeOk (candPair org (s0 :: rest) i).1)
          (List.range (s0 :: rest).length) = some m :=
        minSucc_range_eq _ _ m hm hokm hleast
      rw [hms]
      rfl

/-- C3: for every candidate list in recency order and every assignment of
probe outcomes, the concurrent race — regardless of the order in which the
workers complete — returns the URL and subpath of the successful candidate
with the smallest index, and `(None, None)` when no candidate succeeds or the
list is empty. -/
theorem race_returns_least_index_success (probeOk : List Char → Bool)
    (org : List Char) (subpaths : List (List Char)) (order : List Nat)
    (hperm : order.Perm (List.range subpaths.length)) :
    (probe_candidates_concurrently org subpaths probeOk order = (none, none) ↔
      ∀ i, i < subpaths.length →
        probeOk (build_candidate_url org (subpaths.getD i [])) = false) ∧
    (∀ m, m < subpaths.length →
      probeOk (build_candidate_url org (subpaths.getD m [])) = true →
      (∀ j, j < m → probeOk (build_candidate_url org (subpaths.getD j [])) = false) →
      probe_candidates_concurrently org subpaths probeOk order =
        (some (build_candidate_url org (subpaths.getD m [])),
         some (subpaths.getD m []))) :=
  pcc_least_spec probeOk org subpaths order hperm

/-- C3 witness: candidates `[a, b, c]` (so index 0 = `a`), completion order
`[1, 2, 0]`, only candidate index 2 (`c`) succeeding: the race returns the
winner built from `c`. -/
theorem race_returns_least_index_success_witness :
    probe_candidates_concurrently "http://h".toList [['a'], ['b'], ['c']]
      (fun url => url == "http://h/c".toList) [1, 2, 0] =
      (some "http://h/c".toList, some ['c']) := by
  have h := race_returns_least_index_success
    (fun url => url == "http://h/c".toList) "http://h".toList
    [['a'], ['b'], ['c']] [1, 2, 0] (by decide)
  exact h.2 2 (by decide) (by decide) (by decide)

/-! ## C4: marker terminality -/

/-- C4: a record whose `second_page_url` already carries a terminal marker is
never a probe target, is left unchanged by the pass (for every probe oracle
and observation queue), and contributes nothing to the observation window. -/
theorem marker_rows_terminal (probeOk : List Char → Bool) (w : Nat)
    (wq : List (List Char)) (acc : List PipeRow) (r : PipeRow) (u : List Char)
    (hu : r.second_page_url = some u) (hm : is_marker_present (some u) = true) :
    is_target_row r = false ∧
    processRow probeOk wq r = r ∧
    observe_paths_from_row r = none ∧
    scanStep probeOk w (wq, acc) r = (wq, acc ++ [r]) := by
  have ht : is_target_row r = false := by
    by_cases h0 : u = []
    · simp [is_target_row, hu, h0]
    · simp [is_target_row, hu, h0, hm]
  have hobs : observe_paths_from_row r = none := by
    by_cases h0 : u = []
    · simp [observe_paths_from_row, hu, h0]
    · simp [observe_paths_from_row, hu, h0, hm]
  have hpr : processRow probeOk wq r = r := by
    simp [processRow, ht]
  exact ⟨ht, hpr, hobs, by simp [scanStep, hpr, hobs]⟩

/-- C4 witness: a row already carrying `(sub_x)` is skipped, unchanged and
contributes nothing, even under an always-succeeding probe oracle. -/
theorem marker_rows_terminal_witness :
    is_target_row ⟨7, some "https://x.com/a (sub_x)".toList⟩ = false ∧
    processRow (fun _ => true) [] ⟨7, some "https://x.com/a (sub_x)".toList⟩ =
      ⟨7, some "https://x.com/a (sub_x)".toList⟩ ∧
    observe_paths_from_row ⟨7, some "https://x.com/a (sub_x)".toList⟩ = none ∧
    scanStep (fun _ => true) 50 ([], []) ⟨7, some "https://x.com/a (sub_x)".toList⟩ =
      ([], [⟨7, some "https://x.com/a (sub_x)".toList⟩]) :=
  marker_rows_terminal (fun _ => true) 50 [] [] _ _ rfl (by decide)

/-! ## C6: prober outcome mapping for target rows -/

/-- C6: for every target record, a successful direct probe appends `(access)`
to the original URL (and the result does not depend on the candidate window —
no race is performed); otherwise, with an undeterminable origin or with all
window candidates failing, `(sub_x)` is appended to the original URL; and if
some candidate succeeds, `(sub_o)` is appended to the winning candidate URL
(the smallest recency index), not the original.  Exactly one marker is
appended in each case; the model records the per-record committed value. -/
theorem prober_outcome_mapping (probeOk : List Char → Bool)
    (wq : List (List Char)) (r : PipeRow) (u : List Char)
    (hu : r.second_page_url = some u) (ht : is_target_row r = true) :
    (probeOk u = true →
      processRow probeOk wq r = ⟨r.rid, some (u ++ " (access)".toList)⟩ ∧
      ∀ wq2, processRow probeOk wq2 r = processRow probeOk wq r) ∧
    (probeOk u = false → origin_of u = none →
      processRow probeOk wq r = ⟨r.rid, some (u ++ " (sub_x)".toList)⟩) ∧
    (∀ org, probeOk u = false → origin_of u = some org →
      (∀ i, i < wq.reverse.length →
        probeOk (build_candidate_url org (wq.reverse.getD i [])) = false) →
      processRow probeOk wq r = ⟨r.rid, some (u ++ " (sub_x)".toList)⟩) ∧
    (∀ org m, probeOk u = false → origin_of u = some org →
      m < wq.reverse.length →
      probeOk (build_candidate_url org (wq.reverse.getD m [])) = true →
      (∀ j, j < m → probeOk (build_candidate_url org (wq.reverse.getD j [])) = false) →
      processRow probeOk wq r =
        ⟨r.rid, some (build_candidate_url org (wq.reverse.getD m [])
          ++ " (sub_o)".toList)⟩) := by
  refine ⟨?_, ?_, ?_, ?_⟩
  · intro hdir
    constructor
    · simp [processRow, ht, hu, hdir]
    · intro wq2
      simp [processRow, ht, hu, hdir]
  · intro hdir horg
    simp [processRow, ht, hu, hdir, horg]
  · intro org hdir horg hall
    have hperm : (List.range wq.length).Perm (List.range wq.reverse.length) := by
      rw [List.length_reverse]
    have hpcc : probe_candidates_concurrently org wq.reverse probeOk
        (List.range wq.length) = (none, none) :=
      (pcc_least_spec probeOk org wq.reverse _ hperm).1.mpr hall
    simp [processRow, ht, hu, hdir, horg, hpcc]
  · intro org m hdir horg hm hok hleast
    have hperm : (List.range wq.length).Perm (List.range wq.reverse.length) := by
      rw [List.length_reverse]
    have hpcc := (pcc_least_spec probeOk org wq.reverse
      (List.range wq.length) hperm).2 m hm hok hleast
    simp [processRow, ht, hu, hdir, horg, hpcc]

/-- C6 witness: record `https://example.com` (root path, no marker), window
recency-first `[/y, /x]`, direct probe fails, `/y` fails, `/x` succeeds — the
final committed value is `https://example.com/x (sub_o)`. -/
theorem prober_outcome_mapping_witness :
    processRow (fun url => url == "https://example.com/x".toList)
      ["/x".toList, "/y".toList] ⟨4, some "https://example.com".toList⟩ =
      ⟨4, some "https://example.com/x (sub_o)".toList⟩ := by
  have h := prober_outcome_mapping (fun url => url == "https://example.com/x".toList)
    ["/x".toList, "/y".toList] ⟨4, some "https://example.com".toList⟩
    "https://example.com".toList rfl (by decide)
  exact h.2.2.2 "https://example.com".toList 1 (by decide) (by decide) (by decide)
    (by decide) (by decide)

/-! ## C5: the PathValidator (`normalize_subpath`) -/

theorem hasPre_iff (pat l : List Char) : hasPre pat l = true ↔ ∃ t, l = pat ++ t := by
  induction pat generalizing l with
  | nil => simp [hasPre]
  | cons p ps ih =>
    cases l with
    | nil => simp [hasPre]
    | cons c cs =>
      rw [hasPre, Bool.and_eq_true, beq_iff_eq, ih]
      constructor
      · rintro ⟨rfl, t, rfl⟩
        exact ⟨t, rfl⟩
      · rintro ⟨t, ht⟩
        injection ht with h1 h2
        exact ⟨h1.symm, t, h2⟩

theorem hasSub_iff (pat l : List Char) : hasSub pat l = true ↔ ∃ a b, l = a ++ pat ++ b := by
  induction l with
  | nil =>
    rw [hasSub, hasPre_iff]
    constructor
    · rintro ⟨t, ht⟩
      exact ⟨[], t, ht⟩
    · rintro ⟨a, b, h⟩
      rcases List.append_eq_nil.mp (List.append_eq_nil.mp h.symm).1 with ⟨rfl, rfl⟩
      exact ⟨b, h⟩
  | cons c cs ih =>
    rw [hasSub, Bool.or_eq_true, hasPre_iff, ih]
    constructor
    · rintro (⟨t, ht⟩ | ⟨a, b, ht⟩)
      · exact ⟨[], t, ht⟩
      · exact ⟨c :: a, b, by rw [ht]; simp⟩
    · rintro ⟨a, b, h⟩
      cases a with
      | nil =>
        left
        exact ⟨b, by simpa using h⟩
      | cons x xs =>
        right
        injection h with h1 h2
        exact ⟨xs, b, h2⟩

theorem containsChar_iff (s : List Char) (c : Char) : containsChar s c = true ↔ c ∈ s := by
  rw [containsChar, List.any_eq_true]
  constructor
  · rintro ⟨d, hd, hdc⟩
    rw [beq_iff_eq] at hdc
    rwa [← hdc]
  · intro h
    exact ⟨c, h, beq_self_eq_true c⟩

theorem anyKeywordIn_iff (seg : List Char) :
    anyKeywordIn seg = true ↔
      ∃ kw ∈ allowedKeywords, ∃ a b, toLowerL seg = a ++ kw ++ b := by
  rw [anyKeywordIn, List.any_eq_true]
  constructor
  · rintro ⟨kw, hmem, hsub⟩
    exact ⟨kw, hmem, (hasSub_iff kw (toLowerL seg)).mp hsub⟩
  · rintro ⟨kw, hmem, hex⟩
    exact ⟨kw, hmem, (hasSub_iff kw (toLowerL seg)).mpr hex⟩

theorem normalize_subpath_eq (p : List Char) :
    normalize_subpath p =
      if rejectCond (pyStrip p) then none else some (ensureSlash (pyStrip p)) := by
  by_cases hp : p = []
  · subst hp
    decide
  · simp only [normalize_subpath, if_neg hp]
    generalize pyStrip p = path
    unfold rejectCond
    by_cases h1 : path = []
    · simp [h1]
    by_cases h2 : path = ['/']
    · simp [h1, h2]
    cases h3 : (hasPre "http://".toList path || hasPre "https://".toList path) with
    | true => simp [h1, h2, h3]
    | false =>
    cases h4 : (hasSub "://".toList path || hasPre "/https:".toList path
        || hasPre "/http:".toList path) with
    | true => simp [h1, h2, h3, h4]
    | false =>
    cases h5 : (containsChar path ':' && !hasPre ['/'] path
        && !hasPre "http".toList path) with
    | true => simp [h1, h2, h3, h4, h5]
    | false =>
    cases h6 : blocked5Cond path with
    | true => simp [h1, h2, h3, h4, h5, h6]
    | false =>
    cases h7 : blocked6Cond path with
    | true => simp [h1, h2, h3, h4, h5, h6, h7]
    | false => simp [h1, h2, h3, h4, h5, h6, h7]

/-- C5 (amended): `normalize_subpath` rejects (returns none): the empty
string and whitespace-only strings, `/`, strings starting with `http://` or
`https://`, strings containing `://`, strings starting with `/https:` or
`/http:`, strings containing `:` that start with neither `/` nor `http`, and
strings whose `/`-split component at index 1 — the first segment after the
leading slash for `/`-prefixed paths, but the SECOND textual segment
otherwise — is non-empty, contains `.` and has no allow-listed substring
(case-insensitively), plus, for paths not starting with `/`, strings whose
leading component contains `.` without an allow-listed substring.  Everything
else is accepted and returned normalized to start with `/`.  All six listed
examples hold; the amendment is visible at `"a/b.c"`, which the original
claim accepts but the code rejects. -/
theorem path_validator_characterization :
    normalize_subpath "/api/users".toList = some "/api/users".toList ∧
    normalize_subpath "google.com/path".toList = none ∧
    normalize_subpath "/google.com/path".toList = none ∧
    normalize_subpath "/".toList = none ∧
    normalize_subpath "path".toList = some "/path".toList ∧
    normalize_subpath "/admin.x".toList = some "/admin.x".toList ∧
    normalize_subpath "".toList = none ∧
    normalize_subpath "a/b.c".toList = none ∧
    (∀ p, pyStrip p = [] → normalize_subpath p = none) ∧
    (∀ p, pyStrip p = ['/'] → normalize_subpath p = none) ∧
    (∀ p t, pyStrip p = "http://".toList ++ t → normalize_subpath p = none) ∧
    (∀ p t, pyStrip p = "https://".toList ++ t → normalize_subpath p = none) ∧
    (∀ p a b, pyStrip p = a ++ "://".toList ++ b → normalize_subpath p = none) ∧
    (∀ p t, pyStrip p = "/https:".toList ++ t → normalize_subpath p = none) ∧
    (∀ p t, pyStrip p = "/http:".toList ++ t → normalize_subpath p = none) ∧
    (∀ p, ':' ∈ pyStrip p → (∀ t, pyStrip p ≠ '/' :: t) →
      (∀ t, pyStrip p ≠ "http".toList ++ t) → normalize_subpath p = none) ∧
    (∀ p s1, (pySplit '/' (pyStrip p)).get? 1 = some s1 → '.' ∈ s1 →
      (∀ kw ∈ allowedKeywords, ∀ a b, toLowerL s1 ≠ a ++ kw ++ b) →
      normalize_subpath p = none) ∧
    (∀ p, (∀ t, pyStrip p ≠ '/' :: t) →
      '.' ∈ (pySplit '/' (pyStrip p)).headD [] →
      (∀ kw ∈ allowedKeywords, ∀ a b,
        toLowerL ((pySplit '/' (pyStrip p)).headD []) ≠ a ++ kw ++ b) →
      normalize_subpath p = none) ∧
    (∀ p, pyStrip p ≠ [] → pyStrip p ≠ ['/'] →
      (∀ t, pyStrip p ≠ "http://".toList ++ t) →
      (∀ t, pyStrip p ≠ "https://".toList ++ t) →
      (∀ a b, pyStrip p ≠ a ++ "://".toList ++ b) →
      (∀ t, pyStrip p ≠ "/https:".toList ++ t) →
      (∀ t, pyStrip p ≠ "/http:".toList ++ t) →
      (':' ∈ pyStrip p →
        (∃ t, pyStrip p = '/' :: t) ∨ (∃ t, pyStrip p = "http".toList ++ t)) →
      (∀ s1, (pySplit '/' (pyStrip p)).get? 1 = some s1 → '.' ∈ s1 →
        ∃ kw ∈ allowedKeywords, ∃ a b, toLowerL s1 = a ++ kw ++ b) →
      ((∀ t, pyStrip p ≠ '/' :: t) →
        '.' ∈ (pySplit '/' (pyStrip p)).headD [] →
        ∃ kw ∈ allowedKeywords, ∃ a b,
          toLowerL ((pySplit '/' (pyStrip p)).headD []) = a ++ kw ++ b) →
      normalize_subpath p = some (ensureSlash (pyStrip p))) := by
  refine ⟨by decide, by decide, by decide, by decide, by decide, by decide, by decide,
    by decide, ?_, ?_, ?_, ?_, ?_, ?_, ?_, ?_, ?_, ?_, ?_⟩
  · intro p h
    rw [normalize_subpath_eq, h]
    decide
  · intro p h
    rw [normalize_subpath_eq, h]
    decide
  · intro p t h
    rw [normalize_subpath_eq, h]
    have hpre : hasPre "http://".toList ("http://".toList ++ t) = true :=
      (hasPre_iff _ _).mpr ⟨t, rfl⟩
    have hrc : rejectCond ("http://".toList ++ t) = true := by
      unfold rejectCond
      rw [hpre]
      simp
    rw [hrc]
    simp
  · intro p t h
    rw [normalize_subpath_eq, h]
    have hpre : hasPre "https://".toList ("https://".toList ++ t) = true :=
      (hasPre_iff _ _).mpr ⟨t, rfl⟩
    have hrc : rejectCond ("https://".toList ++ t) = true := by
      unfold rejectCond
      rw [hpre]
      simp
    rw [hrc]
    simp
  · intro p a b h
    rw [normalize_subpath_eq, h]
    have hsub : hasSub "://".toList (a ++ "://".toList ++ b) = true :=
      (hasSub_iff _ _).mpr ⟨a, b, rfl⟩
    have hrc : rejectCond (a ++ "://".toList ++ b) = true := by
      unfold rejectCond
      rw [hsub]
      simp
    rw [hrc]
    simp
  · intro p t h
    rw [normalize_subpath_eq, h]
    have hpre : hasPre "/https:".toList ("/https:".toList ++ t) = true :=
      (hasPre_iff _ _).mpr ⟨t, rfl⟩
    have hrc : rejectCond ("/https:".toList ++ t) = true := by
      unfold rejectCond
      rw [hpre]
      simp
    rw [hrc]
    simp
  · intro p t h
    rw [normalize_subpath_eq, h]
    have hpre : hasPre "/http:".toList ("/http:".toList ++ t) = true :=
      (hasPre_iff _ _).mpr ⟨t, rfl⟩
    have hrc : rejectCond ("/http:".toList ++ t) = true := by
      unfold rejectCond
      rw [hpre]
      simp
    rw [hrc]
    simp
  · intro p hc hns hnh
    rw [normalize_subpath_eq]
    have h1 : containsChar (pyStrip p) ':' = true := (containsChar_iff _ _).mpr hc
    have h2 : hasPre ['/'] (pyStrip p) = false := by
      cases h : hasPre ['/'] (pyStrip p)
      · rfl
      · obtain ⟨t, ht⟩ := (hasPre_iff _ _).mp h
        exact absurd ht (hns t)
    have h3 : hasPre "http".toList (pyStrip p) = false := by
      cases h : hasPre "http".toList (pyStrip p)
      · rfl
      · obtain ⟨t, ht⟩ := (hasPre_iff _ _).mp h
        exact absurd ht (hnh t)
    have hrc : rejectCond (pyStrip p) = true := by
      unfold rejectCond
      rw [h1, h2, h3]
      simp
    rw [hrc]
    simp
  · intro p s1 hget hdot hkw
    rw [normalize_subpath_eq]
    have hne : s1.isEmpty = false := by
      cases s1
      · simp at hdot
      · rfl
    have hcc : containsChar s1 '.' = true := (containsChar_iff _ _).mpr hdot
    have hak : anyKeywordIn s1 = false := by
      cases h : anyKeywordIn s1
      · rfl
      · obtain ⟨kw, hmem, a, b, hab⟩ := (anyKeywordIn_iff _).mp h
        exact absurd hab (hkw kw hmem a b)
    have hstep : blocked5Cond (pyStrip p)
        = (!s1.isEmpty && containsChar s1 '.' && !anyKeywordIn s1) := by
      unfold blocked5Cond
      rw [hget]
    have h5 : blocked5Cond (pyStrip p) = true := by
      rw [hstep, hne, hcc, hak]
      simp
    have hrc : rejectCond (pyStrip p) = true := by
      unfold rejectCond
      rw [h5]
      simp
    rw [hrc]
    simp
  · intro p hns hdot hkw
    rw [normalize_subpath_eq]
    have h2 : hasPre ['/'] (pyStrip p) = false := by
      cases h : hasPre ['/'] (pyStrip p)
      · rfl
      · obtain ⟨t, ht⟩ := (hasPre_iff _ _).mp h
        exact absurd ht (hns t)
    have hcc : containsChar ((pySplit '/' (pyStrip p)).headD []) '.' = true :=
      (containsChar_iff _ _).mpr hdot
    have hak : anyKeywordIn ((pySplit '/' (pyStrip p)).headD []) = false := by
      cases h : anyKeywordIn ((pySplit '/' (pyStrip p)).headD [])
      · rfl
      · obtain ⟨kw, hmem, a, b, hab⟩ := (anyKeywordIn_iff _).mp h
        exact absurd hab (hkw kw hmem a b)
    have h6 : blocked6Cond (pyStrip p) = true := by
      unfold blocked6Cond
      rw [h2, hcc, hak]
      simp
    have hrc : rejectCond (pyStrip p) = true := by
      unfold rejectCond
      rw [h6]
      simp
    rw [hrc]
    simp
  · intro p hne hnr hh1 hh2 hsub hs1 hs2 hcol hseg hlead
    rw [normalize_subpath_eq]
    have hb : decide (pyStrip p = ['/']) = false := by simp [hnr]
    have hc : hasPre "http://".toList (pyStrip p) = false := by
      cases h : hasPre "http://".toList (pyStrip p)
      · rfl
      · obtain ⟨t, ht⟩ := (hasPre_iff _ _).mp h
        exact absurd ht (hh1 t)
    have hd : hasPre "https://".toList (pyStrip p) = false := by
      cases h : hasPre "https://".toList (pyStrip p)
      · rfl
      · obtain ⟨t, ht⟩ := (hasPre_iff _ _).mp h
        exact absurd ht (hh2 t)
    have he : hasSub "://".toList (pyStrip p) = false := by
      cases h : hasSub "://".toList (pyStrip p)
      · rfl
      · obtain ⟨a, b, ht⟩ := (hasSub_iff _ _).mp h
        exact absurd ht (hsub a b)
    have hf : hasPre "/https:".toList (pyStrip p) = false := by
      cases h : hasPre "/https:".toList (pyStrip p)
      · rfl
      · obtain ⟨t, ht⟩ := (hasPre_iff _ _).mp h
        exact absurd ht (hs1 t)
    have hg : hasPre "/http:".toList (pyStrip p) = false := by
      cases h : hasPre "/http:".toList (pyStrip p)
      · rfl
      · obtain ⟨t, ht⟩ := (hasPre_iff _ _).mp h
        exact absurd ht (hs2 t)
    have hc5 : (containsChar (pyStrip p) ':' && !hasPre ['/'] (pyStrip p)
        && !hasPre "http".toList (pyStrip p)) = false := by
      cases hcc : containsChar (pyStrip p) ':' with
      | false => simp
      | true =>
        rcases hcol ((containsChar_iff _ _).mp hcc) with ⟨t, ht⟩ | ⟨t, ht⟩
        · rw [(hasPre_iff ['/'] (pyStrip p)).mpr ⟨t, ht⟩]
          simp
        · rw [(hasPre_iff "http".toList (pyStrip p)).mpr ⟨t, ht⟩]
          simp
    have hb5 : blocked5Cond (pyStrip p) = false := by
      unfold blocked5Cond
      cases hget : (pySplit '/' (pyStrip p)).get? 1 with
      | none => rfl
      | some s1 =>
        show (!s1.isEmpty && containsChar s1 '.' && !anyKeywordIn s1) = false
        cases hdot : containsChar s1 '.' with
        | false => simp
        | true =>
          have hkw : anyKeywordIn s1 = true :=
            (anyKeywordIn_iff _).mpr (hseg s1 hget ((containsChar_iff _ _).mp hdot))
          rw [hkw]
          simp
    have hb6 : blocked6Cond (pyStrip p) = false := by
      unfold blocked6Cond
      cases hpre : hasPre ['/'] (pyStrip p) with
      | true => simp
      | false =>
        have hns : ∀ t, pyStrip p ≠ '/' :: t := by
          intro t ht
          have hp2 := (hasPre_iff ['/'] (pyStrip p)).mpr ⟨t, ht⟩
          rw [hpre] at hp2
          exact absurd hp2 (by simp)
        cases hdot : containsChar ((pySplit '/' (pyStrip p)).headD []) '.' with
        | false => simp
        | true =>
          have hkw : anyKeywordIn ((pySplit '/' (pyStrip p)).headD []) = true :=
            (anyKeywordIn_iff _).mpr (hlead hns ((containsChar_iff _ _).mp hdot))
          rw [hkw]
          simp
    have hrc : rejectCond (pyStrip p) = false := by
      unfold rejectCond
      rw [hb, hc, hd, he, hf, hg, hc5, hb5, hb6]
      simp [hne]
    rw [hrc]
    simp

/-- C5 counterexample: on input `"a/b.c"` the claim's validator (dotted-rule
applied to the FIRST textual segment only, here the dot-free `"a"`) accepts
and returns `"/a/b.c"`, while the code's `normalize_subpath` applies the
dotted rule to split component 1 (`"b.c"`) and rejects. -/
theorem path_validator_counterexample :
    normalize_subpath "a/b.c".toList = none ∧
    normalize_subpath_claimed "a/b.c".toList = some "/a/b.c".toList := by decide

/-- C5 witness: the http-prefixed rejection clause of the characterization
instantiated at the concrete input `"http://x"`. -/
theorem path_validator_characterization_witness :
    normalize_subpath "http://x".toList = none := by
  have h := path_validator_characterization
  exact h.2.2.2.2.2.2.2.2.2.2.1 "http://x".toList ['x'] (by decide)

/-! ## C7: next-cursor construction and pagination stop -/

theorem buildToken_eq_revScan (results : List SItem) :
    buildSearchAfterToken results = results.reverse.findSome? qualifiesToken := by
  cases hr : results.reverse with
  | nil =>
    have h0 : results = [] := by
      have h := congrArg List.reverse hr
      rwa [List.reverse_reverse] at h
    rw [h0]
    rfl
  | cons x t =>
    have hres : results = t.reverse ++ [x] := by
      have h := congrArg List.reverse hr
      rwa [List.reverse_reverse, List.reverse_cons] at h
    have hlast : results.getLast? = some x := by
      rw [hres]
      exact List.getLast?_concat _
    unfold buildSearchAfterToken
    simp only [hlast]
    cases hq : qualifiesToken x with
    | some tok => simp [hr, List.findSome?_cons, hq]
    | none => simp [hr, List.findSome?_cons, hq]

/-- C7: after every page, the next cursor equals the last-to-first scan that
takes the first item whose sort-array head normalizes to a 13-digit
millisecond timestamp and whose id is 36 characters with exactly 4 hyphens,
yielding `[ts13, externalId]`; an empty page yields no cursor; and whenever
no cursor could be built the pagination loop stops (without error — the model
is a total function). -/
theorem cursor_construction_and_stop :
    (∀ results : List SItem,
      buildSearchAfterToken results = results.reverse.findSome? qualifiesToken) ∧
    buildSearchAfterToken [] = none ∧
    (∀ it ts idv, qualifiesToken it = some (ts, idv) ↔
      normalizeMs13 (sortHead it) = some ts ∧ it.sid = some idv ∧
        looksLikeUuid idv = true) ∧
    (∀ results pageInserted streak threshold,
      buildSearchAfterToken results = none →
      collectContinues results pageInserted streak threshold = false) := by
  refine ⟨buildToken_eq_revScan, rfl, ?_, ?_⟩
  · intro it ts idv
    unfold qualifiesToken
    cases hn : normalizeMs13 (sortHead it) with
    | none =>
      cases hs : it.sid <;> simp
    | some ts2 =>
      cases hs : it.sid with
      | none => simp
      | some i =>
        show (if looksLikeUuid i = true then some (ts2, i) else none) = some (ts, idv) ↔
          some ts2 = some ts ∧ some i = some idv ∧ looksLikeUuid idv = true
        by_cases hu : looksLikeUuid i = true
        · rw [if_pos hu]
          constructor
          · intro h
            injection h with h
            injection h with h1 h2
            rw [← h1, ← h2]
            exact ⟨rfl, rfl, hu⟩
          · rintro ⟨h1, h2, h3⟩
            injection h1 with h1
            injection h2 with h2
            rw [h1, h2]
        · rw [if_neg hu]
          constructor
          · intro h
            exact absurd h (by simp)
          · rintro ⟨h1, h2, h3⟩
            injection h2 with h2
            rw [← h2] at h3
            exact absurd h3 hu
  · intro results pageInserted streak threshold h
    simp [collectContinues, h]

/-- C7 witness: the stop clause instantiated at an empty page — no cursor can
be built and the loop does not continue. -/
theorem cursor_construction_and_stop_witness :
    collectContinues [] 0 0 5 = false :=
  cursor_construction_and_stop.2.2.2 [] 0 0 5 rfl

/-! ## C8: HttpProbe totality and HEAD-then-GET fallback -/

/-- C8: `http_probe` maps a HEAD transport exception to `(false, 0)` without
issuing GET's verdict; a HEAD success status in `[200,400)` is returned as
`(true, status)` with no GET; otherwise the single GET retry decides under
the same rule, with a GET exception again giving `(false, 0)`; and whenever
the probe reports success its reported status lies in `[200,400)`.  The model
is a total function — no input raises. -/
theorem http_probe_spec :
    (∀ g, http_probe none g = (false, 0)) ∧
    (∀ c g, 200 ≤ c → c < 400 → http_probe (some c) g = (true, c)) ∧
    (∀ c, ¬(200 ≤ c ∧ c < 400) → http_probe (some c) none = (false, 0)) ∧
    (∀ c d, ¬(200 ≤ c ∧ c < 400) →
      http_probe (some c) (some d) = (is_success_status d, d)) ∧
    (∀ h g, (http_probe h g).1 = true →
      200 ≤ (http_probe h g).2 ∧ (http_probe h g).2 < 400) := by
  have hs : ∀ c, is_success_status c = true ↔ 200 ≤ c ∧ c < 400 := by
    intro c
    simp [is_success_status]
  have hsf : ∀ c, ¬(200 ≤ c ∧ c < 400) → is_success_status c = false := by
    intro c h
    cases hc : is_success_status c
    · rfl
    · exact absurd ((hs c).mp hc) h
  refine ⟨fun g => rfl, ?_, ?_, ?_, ?_⟩
  · intro c g h1 h2
    simp [http_probe, (hs c).mpr ⟨h1, h2⟩]
  · intro c h
    simp [http_probe, hsf c h]
  · intro c d h
    simp [http_probe, hsf c h]
  · intro h g htrue
    cases h with
    | none => simp [http_probe] at htrue
    | some c =>
      by_cases hc : is_success_status c = true
      · have he : http_probe (some c) g = (true, c) := by simp [http_probe, hc]
        rw [he]
        exact (hs c).mp hc
      · have hc2 : is_success_status c = false := by
          cases h2 : is_success_status c
          · rfl
          · exact absurd h2 hc
        cases g with
        | none =>
          have he : http_probe (some c) none = (false, 0) := by
            simp [http_probe, hc2]
          rw [he] at htrue
          simp at htrue
        | some d =>
          have he : http_probe (some c) (some d) = (is_success_status d, d) := by
            simp [http_probe, hc2]
          rw [he] at htrue ⊢
          exact (hs d).mp htrue

/-- C8 witness: a HEAD status of 500 followed by a GET status of 301 yields
`(true, 301)`, and a HEAD transport exception yields `(false, 0)`. -/
theorem http_probe_spec_witness :
    http_probe (some 500) (some 301) = (true, 301) ∧
    http_probe none none = (false, 0) := by
  refine ⟨?_, http_probe_spec.1 none⟩
  rw [http_probe_spec.2.2.2.1 500 301 (by omega)]
  decide

/-! ## C9: checkpoint read validation -/

/-- C9: `_get_resume_token` returns a stored token exactly when the row is
present and non-empty, parses as a JSON array whose element 0 is a string of
13 ASCII digits and whose element 1 is a 36-character string with exactly 4
hyphens; every absent, unparsable or shape-invalid stored value reads as "no
cursor", and the read is a total function — it never raises. -/
theorem checkpoint_read_validation :
    (∀ parse, getResumeToken none parse = none) ∧
    (∀ stored parse tok, getResumeToken stored parse = some tok ↔
      ∃ raw xs ts idv,
        stored = some raw ∧ raw ≠ [] ∧ parse raw = some (JVal.jarr xs) ∧
        tok = JVal.jarr xs ∧
        xs.get? 0 = some (JVal.jstr ts) ∧ looksLikeMs13 ts = true ∧
        xs.get? 1 = some (JVal.jstr idv) ∧ looksLikeUuid idv = true) := by
  refine ⟨fun parse => rfl, ?_⟩
  intro stored parse tok
  constructor
  · intro h
    cases stored with
    | none => simp [getResumeToken] at h
    | some raw =>
      simp only [getResumeToken] at h
      by_cases hraw : raw = []
      · rw [if_pos hraw] at h
        exact absurd h (by simp)
      · rw [if_neg hraw] at h
        cases hp : parse raw with
        | none =>
          rw [hp] at h
          simp at h
        | some jv =>
          rw [hp] at h
          cases jv with
          | jnull => simp at h
          | jstr s => simp at h
          | jint n => simp at h
          | jother => simp at h
          | jarr xs =>
            have h2 : (match xs.get? 0, xs.get? 1 with
                | some t0, some t1 =>
                  if (jLooksLikeMs13 t0 && jLooksLikeUuid t1) = true
                  then some (JVal.jarr xs) else none
                | _, _ => none) = some tok := h
            cases h0 : xs.get? 0 with
            | none =>
              rw [h0] at h2
              exact absurd h2 (by simp)
            | some t0 =>
              cases h1 : xs.get? 1 with
              | none =>
                rw [h0, h1] at h2
                exact absurd h2 (by simp)
              | some t1 =>
                rw [h0, h1] at h2
                have h3 : (if (jLooksLikeMs13 t0 && jLooksLikeUuid t1) = true
                    then some (JVal.jarr xs) else none) = some tok := h2
                by_cases hv : (jLooksLikeMs13 t0 && jLooksLikeUuid t1) = true
                · rw [if_pos hv] at h3
                  rw [Bool.and_eq_true] at hv
                  obtain ⟨hm, hu⟩ := hv
                  rcases t0 with _ | ts | n0 | ys | _
                  · simp [jLooksLikeMs13] at hm
                  · rcases t1 with _ | idv | n1 | zs | _
                    · simp [jLooksLikeUuid] at hu
                    · refine ⟨raw, xs, ts, idv, rfl, hraw, hp, ?_, h0, hm, h1, hu⟩
                      injection h3 with h3
                      exact h3.symm
                    · simp [jLooksLikeUuid] at hu
                    · simp [jLooksLikeUuid] at hu
                    · simp [jLooksLikeUuid] at hu
                  · simp [jLooksLikeMs13] at hm
                  · simp [jLooksLikeMs13] at hm
                  · simp [jLooksLikeMs13] at hm
                · rw [if_neg hv] at h3
                  exact absurd h3 (by simp)
  · rintro ⟨raw, xs, ts, idv, rfl, hraw, hp, rfl, h0, hm, h1, hu⟩
    have h0g : xs[0]? = some (JVal.jstr ts) := by
      rw [← List.get?_eq_getElem?]
      exact h0
    have h1g : xs[1]? = some (JVal.jstr idv) := by
      rw [← List.get?_eq_getElem?]
      exact h1
    simp [getResumeToken, hraw, hp, h0g, h1g, jLooksLikeMs13, jLooksLikeUuid, hm, hu]
